import Mathlib

/-!
Shallow embedding of `mnt-rs` (files `src/process.rs`, `src/error.rs`):
the `/proc/<pid>/mountinfo` line parser `MountEntry::from_str` and the
streaming adapter `parse_mountinfo`, together with the error taxonomy
`LineError`.  Strings are modelled as Lean `String` (a wrapper around
`List Char`); Rust's `str::split` / `split_terminator` are re-implemented
on character lists so that their exact semantics (in particular the
dropping of a trailing empty substring by `split_terminator`) is explicit.
-/

namespace Mntrs

/-- Rust `str::split(pred)` on a character list: splits at every character
satisfying `p`, keeping empty substrings (so the result is always
non-empty, and `"".split(p)` is `[""]`). -/
def splitChars (p : Char → Bool) : List Char → List (List Char)
  | [] => [[]]
  | c :: cs =>
    if p c then [] :: splitChars p cs
    else
      match splitChars p cs with
      | [] => [[c]]
      | l :: ls => (c :: l) :: ls

/-- Rust `str::split_terminator(pred)`: like `split`, except the trailing
substring is skipped when it is empty (i.e. when the input ends with a
separator, or is empty). -/
def splitTermChars (p : Char → Bool) (cs : List Char) : List (List Char) :=
  let parts := splitChars p cs
  if parts.getLast? = some [] then parts.dropLast else parts

/-- `split_terminator` lifted to `String`. -/
def splitTerm (s : String) (p : Char → Bool) : List String :=
  (splitTermChars p s.data).map String.mk

/-- Rust `str::trim`: strip leading and trailing whitespace (realized as
trim-end followed by trim-start; the two ends are independent).  Rust
trims Unicode `White_Space`; all inputs relevant here are ASCII, where
this agrees with `Char.isWhitespace`. -/
def rustTrim (s : String) : String :=
  ⟨(s.data.reverse.dropWhile Char.isWhitespace).reverse.dropWhile Char.isWhitespace⟩

/-- The whitespace-token stream of `from_str`:
`line.trim().split_terminator(|s| s == ' ' || s == '\t').filter(|s| s != &"")`.
Under the non-empty filter, `split` and `split_terminator` agree (the
latter only drops a trailing empty substring), so `splitTerm` is used. -/
def tokenize (line : String) : List String :=
  (splitTerm (rustTrim line) (fun c => c = ' ' || c = '\t')).filter (fun s => s ≠ "")

/-- Error kinds of `core::num::ParseIntError` reachable from unsigned
`from_str_radix` (`Empty`, `InvalidDigit`, `PosOverflow`). -/
inductive IntErrorKind where
  | empty
  | invalidDigit
  | posOverflow
deriving DecidableEq, Repr

/-- Rust `str::parse::<uN>()` (unsigned `from_str_radix`, base 10) on a
character list: an optional leading `+`, then one or more ASCII digits,
value below `bound`. -/
def parseUIntChars (bound : Nat) (cs : List Char) : Except IntErrorKind Nat :=
  match cs with
  | [] => .error .empty
  | _ =>
    let ds := if cs.head? = some '+' then cs.tail else cs
    if ds = [] then .error .invalidDigit
    else if ds.all Char.isDigit then
      let v := ds.foldl (fun a c => a * 10 + (c.toNat - '0'.toNat)) 0
      if v < bound then .ok v else .error .posOverflow
    else .error .invalidDigit

/-- Rust `str::parse` for an unsigned integer type with exclusive bound
`bound`, lifted to `String`. -/
def parseUInt (bound : Nat) (s : String) : Except IntErrorKind Nat :=
  parseUIntChars bound s.data

/-- `usize` on the (64-bit) targets the crate supports. -/
def usizeBound : Nat := 2 ^ 64

/-- Exclusive bound of `u32` (`dev_major` / `dev_minor`). -/
def u32Bound : Nat := 2 ^ 32

/-- `src/error.rs` `LineError` — the variants reachable from
`MountEntry::from_str` and `parse_mountinfo` (the fstab-oriented variants
`MissingSpec` … `InvalidPassno` are never produced by this parser and are
omitted; `IoError`'s payload `io::ErrorKind` is left abstract as a `Nat`
tag since only its equality matters). -/
inductive LineError where
  | missingMountId
  | missingParentId
  | missingDevId
  | invalidDevId (s : String)
  | missingRoot
  | missingMountPoint
  | invalidMountPoint (s : String)
  | missingMountOpts
  | invalidTag (s : String)
  | missingSeparator
  | missingFileSystem
  | missingMountSource
  | missingSuperOpts
  | ioError (kind : Nat)
  | parseIntError (k : IntErrorKind)
deriving DecidableEq, Repr

/-- Modelled from the spec: the per-option token parser (`MntOps`, in the
repository's `mount.rs`, not under `src/`) is "an individual mount-option
token parser (raw token → Option or failure), treated as an opaque
capability".  Its constructors are those the repository's own test
(`test_parse_mountinfo`) exercises: `Write`, `Suid`, `Dev`, `Exec`,
`RelAtime`, plus the catch-all `Extra`. -/
inductive MntOps where
  | write (b : Bool)
  | suid (b : Bool)
  | dev (b : Bool)
  | exec (b : Bool)
  | relAtime (b : Bool)
  | extra (s : String)
deriving DecidableEq, Repr

/-- Modelled from the spec: `MntOps::from_str`.  The test expects
`rw → Write(true)`, `nosuid → Suid(false)`, `nodev → Dev(false)`,
`noexec → Exec(false)`, `relatime → RelAtime(true)` and any other token
(e.g. `data=ordered`) to become `Extra`; the symmetric spellings are
included and the catch-all makes the parser total. -/
def MntOps.fromStr (s : String) : Except LineError MntOps :=
  if s = "rw" then .ok (.write true)
  else if s = "ro" then .ok (.write false)
  else if s = "suid" then .ok (.suid true)
  else if s = "nosuid" then .ok (.suid false)
  else if s = "dev" then .ok (.dev true)
  else if s = "nodev" then .ok (.dev false)
  else if s = "exec" then .ok (.exec true)
  else if s = "noexec" then .ok (.exec false)
  else if s = "relatime" then .ok (.relAtime true)
  else if s = "norelatime" then .ok (.relAtime false)
  else .ok (.extra s)

/-- `src/process.rs` `MountEntry` (struct, lines 31–55).  `PathBuf` fields
(`root`, `mount_point`) are modelled as `String`: `PathBuf::from(&str)` is
byte-lossless on Unix. -/
structure MountEntry where
  mount_id : Nat
  parent_id : Nat
  dev_major : Nat
  dev_minor : Nat
  root : String
  mount_point : String
  mount_opts : List MntOps
  tags : List (String × Option String)
  filesystem : String
  mount_source : String
  super_opts : List MntOps
deriving DecidableEq, Repr

/-- Field 3 (`from_str` lines 76–97): `dev.split_terminator(':')`, first
part parsed as `dev_major`, second as `dev_minor` (each absence →
`InvalidDevId(dev)`, each parse failure → `ParseIntError`), and any third
part → `InvalidDevId(dev)`. -/
def parseDevId (dev : String) : Except LineError (Nat × Nat) :=
  match splitTerm dev (fun c => c = ':') with
  | [] => .error (.invalidDevId dev)
  | major :: rest =>
    match parseUInt u32Bound major with
    | .error k => .error (.parseIntError k)
    | .ok dev_major =>
      match rest with
      | [] => .error (.invalidDevId dev)
      | minor :: rest2 =>
        match parseUInt u32Bound minor with
        | .error k => .error (.parseIntError k)
        | .ok dev_minor =>
          if rest2 = [] then .ok (dev_major, dev_minor)
          else .error (.invalidDevId dev)

/-- Fields 6 and 11 (`from_str` lines 100–105 and 134–139):
`split_terminator(',')` then parse each piece, first failure wins. -/
def parseOpts (s : String) : Except LineError (List MntOps) :=
  (splitTerm s (fun c => c = ',')).mapM MntOps.fromStr

/-- One tag token (`from_str` lines 112–119): `tag.split_terminator(':')`;
the first part is the name (no part at all → `InvalidTag(tag)`), the
second part, when present, the value. -/
def parseTag (tag : String) : Except LineError (String × Option String) :=
  match splitTerm tag (fun c => c = ':') with
  | [] => .error (.invalidTag tag)
  | name :: rest => .ok (name, rest.head?)

/-- The tag loop (`from_str` lines 107–124): consume tokens until the
sentinel `-` (which is itself consumed), collecting tags in order;
exhaustion before the sentinel → `MissingSeparator`.  Returns the tags and
the tokens remaining after the sentinel. -/
def parseTags : List String → Except LineError (List (String × Option String) × List String)
  | [] => .error .missingSeparator
  | tok :: rest =>
    if tok = "-" then .ok ([], rest)
    else do
      let t ← parseTag tok
      let (ts, rest') ← parseTags rest
      pure (t :: ts, rest')

/-- `tokens.next().ok_or(e)`: pop the next token or fail with `e`. -/
def next (ts : List String) (e : LineError) : Except LineError (String × List String) :=
  match ts with
  | [] => .error e
  | t :: ts => .ok (t, ts)

/-- `MountEntry::from_str` (lines 62–154) after tokenization: the eleven
fields consumed left to right by a single forward cursor; tokens remaining
after `super_opts` are ignored. -/
def parseTokens (ts : List String) : Except LineError MountEntry := do
  let s1 ← next ts .missingMountId
  let mount_id ← (parseUInt usizeBound s1.1).mapError .parseIntError
  let s2 ← next s1.2 .missingParentId
  let parent_id ← (parseUInt usizeBound s2.1).mapError .parseIntError
  let s3 ← next s2.2 .missingDevId
  let dev ← parseDevId s3.1
  let s4 ← next s3.2 .missingRoot
  let s5 ← next s4.2 .missingMountPoint
  let s6 ← next s5.2 .missingMountOpts
  let mount_opts ← parseOpts s6.1
  let tagsRes ← parseTags s6.2
  let s7 ← next tagsRes.2 .missingFileSystem
  let s8 ← next s7.2 .missingMountSource
  let s9 ← next s8.2 .missingSuperOpts
  let super_opts ← parseOpts s9.1
  pure { mount_id, parent_id, dev_major := dev.1, dev_minor := dev.2,
         root := s4.1, mount_point := s5.1, mount_opts, tags := tagsRes.1,
         filesystem := s7.1, mount_source := s8.1, super_opts }

/-- `MountEntry::from_str`: trim, tokenize, consume. -/
def MountEntry.fromStr (line : String) : Except LineError MountEntry :=
  parseTokens (tokenize line)

/-- `BufRead::lines` on an in-memory buffer: split on `'\n'` (the final
empty substring produced by a trailing newline is not a line), then strip
one trailing `'\r'` from each line. -/
def stripCR (s : String) : String :=
  if s.data.getLast? = some '\r' then ⟨s.data.dropLast⟩ else s

/-- The lines yielded by `BufReader::new(r).lines()` for a string buffer. -/
def linesOf (input : String) : List String :=
  (splitTerm input (fun c => c = '\n')).map stripCR

/-- `parse_mountinfo` (lines 23–28) on an in-memory buffer, the lazy
iterator modelled by the list of the items it yields: one `from_str`
result per line.  (Reading from a byte slice cannot fail, so the
`IoError` arm of line 27 does not arise.) -/
def parse_mountinfo (input : String) : List (Except LineError MountEntry) :=
  (linesOf input).map MountEntry.fromStr

/-! ### Basic lemmas -/

deriving instance DecidableEq for Except

@[simp] theorem except_ok_bind {ε α β : Type _} (a : α) (f : α → Except ε β) :
    (Except.ok a : Except ε α) >>= f = f a := rfl

@[simp] theorem except_error_bind {ε α β : Type _} (e : ε) (f : α → Except ε β) :
    (Except.error e : Except ε α) >>= f = .error e := rfl

@[simp] theorem except_mapError_ok {ε ε' α : Type _} (f : ε → ε') (a : α) :
    (Except.ok a : Except ε α).mapError f = .ok a := rfl

@[simp] theorem except_mapError_error {ε ε' α : Type _} (f : ε → ε') (e : ε) :
    (Except.error e : Except ε α).mapError f = .error (f e) := rfl

theorem splitChars_ne_nil (p : Char → Bool) (cs : List Char) : splitChars p cs ≠ [] := by
  cases cs with
  | nil => simp [splitChars]
  | cons c cs =>
    simp only [splitChars]
    split
    · simp
    · cases h : splitChars p cs <;> simp

theorem splitChars_no_sep (p : Char → Bool) (cs : List Char)
    (h : ∀ c ∈ cs, p c = false) : splitChars p cs = [cs] := by
  induction cs with
  | nil => rfl
  | cons c cs ih =>
    have hc : p c = false := h c (by simp)
    simp only [splitChars, hc, Bool.false_eq_true, if_false]
    rw [ih (fun c hc => h c (by simp [hc]))]

theorem splitChars_append (p : Char → Bool) (xs : List Char) (c : Char) (ys : List Char)
    (hxs : ∀ a ∈ xs, p a = false) (hc : p c = true) :
    splitChars p (xs ++ c :: ys) = xs :: splitChars p ys := by
  induction xs with
  | nil => simp [splitChars, hc]
  | cons x xs ih =>
    have hx : p x = false := hxs x (by simp)
    simp only [List.cons_append, splitChars, hx, Bool.false_eq_true, if_false, List.append_eq]
    rw [ih (fun a ha => hxs a (by simp [ha]))]

theorem splitChars_singleton (p : Char → Bool) (cs x : List Char)
    (h : splitChars p cs = [x]) : x = cs := by
  induction cs generalizing x with
  | nil =>
    simp only [splitChars] at h
    exact (List.cons.inj h).1.symm
  | cons c cs ih =>
    simp only [splitChars] at h
    cases hpc : p c with
    | true =>
      rw [hpc, if_pos rfl] at h
      exact absurd (List.cons.inj h).2 (splitChars_ne_nil p cs)
    | false =>
      rw [hpc] at h
      simp only [Bool.false_eq_true, if_false] at h
      cases hsp : splitChars p cs with
      | nil => exact absurd hsp (splitChars_ne_nil p cs)
      | cons l ls =>
        rw [hsp] at h
        obtain ⟨h1, h2⟩ := List.cons.inj h
        subst h2
        rw [← h1, ih l hsp]

theorem string_data_eq_nil_iff (s : String) : s.data = [] ↔ s = "" :=
  ⟨fun h => String.ext h, fun h => by rw [h]⟩

theorem splitTermChars_nil (p : Char → Bool) : splitTermChars p [] = [] := rfl

theorem splitTermChars_def (p : Char → Bool) (cs : List Char) :
    splitTermChars p cs =
      if (splitChars p cs).getLast? = some [] then (splitChars p cs).dropLast
      else splitChars p cs := rfl

theorem splitTermChars_no_sep (p : Char → Bool) (cs : List Char) (hne : cs ≠ [])
    (h : ∀ c ∈ cs, p c = false) : splitTermChars p cs = [cs] := by
  rw [splitTermChars_def, splitChars_no_sep p cs h, List.getLast?_singleton,
    if_neg (fun hc => hne (Option.some.inj hc))]

theorem splitTermChars_eq_nil (p : Char → Bool) (cs : List Char)
    (h : splitTermChars p cs = []) : cs = [] := by
  rw [splitTermChars_def] at h
  split at h
  · next hlast =>
    cases hsc : splitChars p cs with
    | nil => exact absurd hsc (splitChars_ne_nil p cs)
    | cons q qs =>
      rw [hsc] at h hlast
      cases qs with
      | nil =>
        have hq : q = cs := splitChars_singleton _ _ _ hsc
        rw [List.getLast?_singleton] at hlast
        exact hq ▸ Option.some.inj hlast
      | cons q' qs' => simp [List.dropLast] at h
  · next => exact absurd h (splitChars_ne_nil p cs)

/-- `split_terminator` peels off the first separator-free chunk before a
separator: the trailing-empty adjustment only concerns the last chunk. -/
theorem splitTermChars_sep (p : Char → Bool) (xs : List Char) (c : Char) (ys : List Char)
    (hxs : ∀ a ∈ xs, p a = false) (hc : p c = true) :
    splitTermChars p (xs ++ c :: ys) = xs :: splitTermChars p ys := by
  unfold splitTermChars
  rw [splitChars_append p xs c ys hxs hc]
  cases hsp : splitChars p ys with
  | nil => exact absurd hsp (splitChars_ne_nil p ys)
  | cons q qs =>
    simp only [List.getLast?_cons_cons, List.dropLast_cons₂]
    split <;> rfl

theorem splitTerm_no_sep (s : String) (p : Char → Bool) (hne : s ≠ "")
    (h : ∀ c ∈ s.data, p c = false) : splitTerm s p = [s] := by
  unfold splitTerm
  rw [splitTermChars_no_sep p s.data (fun hc => hne ((string_data_eq_nil_iff s).mp hc)) h]
  rfl

theorem tokenize_mem_ne_empty (line t : String) (h : t ∈ tokenize line) : t ≠ "" := by
  unfold tokenize at h
  have := (List.mem_filter.mp h).2
  simpa using this

/-! ### `parseTag` lemmas -/

theorem parseTag_ok_of_ne (t : String) (hne : t ≠ "") :
    ∃ nm v, parseTag t = .ok (nm, v) := by
  unfold parseTag
  cases hsp : splitTerm t (fun c => c = ':') with
  | nil =>
    exfalso
    unfold splitTerm at hsp
    rw [List.map_eq_nil_iff] at hsp
    exact hne ((string_data_eq_nil_iff t).mp (splitTermChars_eq_nil _ _ hsp))
  | cons nm rest => exact ⟨nm, rest.head?, rfl⟩

theorem parseTag_ok_no_colon (t : String) (pr : String × Option String)
    (hok : parseTag t = .ok pr) (h : ∀ c ∈ t.data, c ≠ ':') : pr = (t, none) := by
  have hne : t ≠ "" := by
    intro he
    rw [he] at hok
    exact Except.noConfusion hok
  have hsp : splitTerm t (fun c => c = ':') = [t] :=
    splitTerm_no_sep t _ hne (fun c hc => by simpa using h c hc)
  unfold parseTag at hok
  rw [hsp] at hok
  exact (Except.ok.inj hok).symm

theorem parseTag_trailing_colon (nm : String) (pr : String × Option String)
    (hok : parseTag (nm ++ ":") = .ok pr) (h : ∀ c ∈ nm.data, c ≠ ':') : pr = (nm, none) := by
  have hsp : splitTerm (nm ++ ":") (fun c => c = ':') = [nm] := by
    unfold splitTerm
    have hdata : (nm ++ ":").data = nm.data ++ ':' :: [] := by
      rw [String.data_append]
    rw [hdata, splitTermChars_sep _ nm.data ':' [] (fun a ha => by simpa using h a ha)
      (by simp), splitTermChars_nil]
    rfl
  unfold parseTag at hok
  rw [hsp] at hok
  exact (Except.ok.inj hok).symm

theorem parseTag_leading_colon (t : String) (pr : String × Option String) (rest : List Char)
    (hok : parseTag t = .ok pr) (h : t.data = ':' :: rest) : pr.1 = "" := by
  have hsp : splitTermChars (fun c => decide (c = ':')) t.data =
      [] :: splitTermChars (fun c => decide (c = ':')) rest := by
    rw [h]
    exact splitTermChars_sep _ [] ':' rest (by simp) (by simp)
  unfold parseTag splitTerm at hok
  rw [hsp] at hok
  simp only [List.map_cons] at hok
  rw [← (Except.ok.inj hok)]

/-! ### `parseTags` lemmas -/

@[simp] theorem except_pure_eq {ε α : Type _} (a : α) : (pure a : Except ε α) = .ok a := rfl

theorem except_bind_ok_inv {ε α β : Type _} {x : Except ε α} {f : α → Except ε β} {b : β}
    (h : x >>= f = .ok b) : ∃ a, x = .ok a ∧ f a = .ok b := by
  cases x with
  | ok a => exact ⟨a, rfl, h⟩
  | error e => simp at h

theorem except_mapError_ok_inv {ε ε' α : Type _} {f : ε → ε'} {x : Except ε α} {a : α}
    (h : x.mapError f = .ok a) : x = .ok a := by
  cases x with
  | ok b => simpa using h
  | error e => simp at h

theorem next_ok_inv {ts : List String} {e : LineError} {t : String} {ts' : List String}
    (h : next ts e = .ok (t, ts')) : ts = t :: ts' := by
  cases ts with
  | nil => simp [next] at h
  | cons a as =>
    simp only [next, Except.ok.injEq, Prod.mk.injEq] at h
    rw [h.1, h.2]

theorem parseTags_sentinel (rest : List String) : parseTags ("-" :: rest) = .ok ([], rest) := by
  simp [parseTags]

theorem parseTags_mid (mid : List String) (tg : List (String × Option String))
    (rest : List String) (hmem : "-" ∉ mid) (htg : mid.mapM parseTag = .ok tg) :
    parseTags (mid ++ "-" :: rest) = .ok (tg, rest) := by
  induction mid generalizing tg with
  | nil =>
    simp only [List.mapM_nil, except_pure_eq, Except.ok.injEq] at htg
    rw [← htg, List.nil_append]
    exact parseTags_sentinel rest
  | cons t mid ih =>
    have ht : t ≠ "-" := fun h => hmem (h ▸ List.mem_cons_self t mid)
    rw [List.mapM_cons] at htg
    obtain ⟨y, hpt, htg⟩ := except_bind_ok_inv htg
    obtain ⟨ys, hpm, htg⟩ := except_bind_ok_inv htg
    simp only [except_pure_eq, Except.ok.injEq] at htg
    rw [List.cons_append]
    simp only [parseTags, if_neg ht, hpt, except_ok_bind,
      ih ys (fun hm => hmem (List.mem_cons_of_mem _ hm)) hpm, except_pure_eq, ← htg]

theorem parseTags_no_sentinel (ts : List String) (hne : ∀ t ∈ ts, t ≠ "")
    (hmem : "-" ∉ ts) : parseTags ts = .error .missingSeparator := by
  induction ts with
  | nil => rfl
  | cons t ts ih =>
    have ht : t ≠ "-" := fun h => hmem (h ▸ List.mem_cons_self t ts)
    obtain ⟨nm, v, hok⟩ := parseTag_ok_of_ne t (hne t (List.mem_cons_self t ts))
    simp only [parseTags, if_neg ht, hok, except_ok_bind,
      ih (fun u hu => hne u (List.mem_cons_of_mem _ hu))
        (fun hm => hmem (List.mem_cons_of_mem _ hm)), except_error_bind]

theorem parseTags_append (ts extra : List String) (tg : List (String × Option String))
    (rest : List String) (h : parseTags ts = .ok (tg, rest)) :
    parseTags (ts ++ extra) = .ok (tg, rest ++ extra) := by
  induction ts generalizing tg rest with
  | nil => simp [parseTags] at h
  | cons t ts ih =>
    by_cases ht : t = "-"
    · subst ht
      rw [parseTags_sentinel] at h
      obtain ⟨h1, h2⟩ := Prod.mk.injEq .. ▸ Except.ok.inj h
      rw [List.cons_append, parseTags_sentinel, h1, h2]
    · simp only [parseTags, if_neg ht] at h
      obtain ⟨y, hpt, h⟩ := except_bind_ok_inv h
      obtain ⟨⟨ys, r'⟩, hpts, h⟩ := except_bind_ok_inv h
      simp only [except_pure_eq, Except.ok.injEq, Prod.mk.injEq] at h
      rw [List.cons_append]
      simp only [parseTags, if_neg ht, hpt, except_ok_bind, ih _ _ hpts, except_ok_bind,
        except_pure_eq, ← h.1, ← h.2]

theorem forall₂_of_mapM_tags (mid : List String) (tg : List (String × Option String))
    (h : mid.mapM parseTag = .ok tg) :
    List.Forall₂ (fun t pr => parseTag t = .ok pr) mid tg := by
  induction mid generalizing tg with
  | nil =>
    simp only [List.mapM_nil, except_pure_eq, Except.ok.injEq] at h
    rw [← h]
    exact List.Forall₂.nil
  | cons t mid ih =>
    rw [List.mapM_cons] at h
    obtain ⟨y, hpt, h⟩ := except_bind_ok_inv h
    obtain ⟨ys, hpm, h⟩ := except_bind_ok_inv h
    simp only [except_pure_eq, Except.ok.injEq] at h
    rw [← h]
    exact List.Forall₂.cons hpt (ih ys hpm)

/-! ### `parseTokens` lemmas -/

theorem parseTokens_ok_of (t1 t2 dev rt mp opts : String) (tagTs : List String)
    (fs src so : String) (rest : List String) (m p dM dm : Nat)
    (mo sop : List MntOps) (tg : List (String × Option String))
    (h1 : parseUInt usizeBound t1 = .ok m)
    (h2 : parseUInt usizeBound t2 = .ok p)
    (h3 : parseDevId dev = .ok (dM, dm))
    (h6 : parseOpts opts = .ok mo)
    (htags : parseTags tagTs = .ok (tg, fs :: src :: so :: rest))
    (hso : parseOpts so = .ok sop) :
    parseTokens (t1 :: t2 :: dev :: rt :: mp :: opts :: tagTs) =
      .ok { mount_id := m, parent_id := p, dev_major := dM, dev_minor := dm,
            root := rt, mount_point := mp, mount_opts := mo, tags := tg,
            filesystem := fs, mount_source := src, super_opts := sop } := by
  simp [parseTokens, next, h1, h2, h3, h6, htags, hso]

theorem parseTokens_ok_inv (ts : List String) (r : MountEntry)
    (h : parseTokens ts = .ok r) :
    ∃ t1 t2 dev rt mp opts tagTs fs src so rest tg m p dM dm mo sop,
      ts = t1 :: t2 :: dev :: rt :: mp :: opts :: tagTs ∧
      parseUInt usizeBound t1 = .ok m ∧
      parseUInt usizeBound t2 = .ok p ∧
      parseDevId dev = .ok (dM, dm) ∧
      parseOpts opts = .ok mo ∧
      parseTags tagTs = .ok (tg, fs :: src :: so :: rest) ∧
      parseOpts so = .ok sop ∧
      r = { mount_id := m, parent_id := p, dev_major := dM, dev_minor := dm,
            root := rt, mount_point := mp, mount_opts := mo, tags := tg,
            filesystem := fs, mount_source := src, super_opts := sop } := by
  unfold parseTokens at h
  obtain ⟨⟨t1, ts1⟩, hn1, hA⟩ := except_bind_ok_inv h
  clear h
  obtain rfl := next_ok_inv hn1
  obtain ⟨m, hm, hB⟩ := except_bind_ok_inv hA
  clear hA
  have h1 : parseUInt usizeBound t1 = .ok m := except_mapError_ok_inv hm
  obtain ⟨⟨t2, ts2⟩, hn2, hC⟩ := except_bind_ok_inv hB
  clear hB
  obtain rfl := next_ok_inv hn2
  obtain ⟨p, hp, hD⟩ := except_bind_ok_inv hC
  clear hC
  have h2 : parseUInt usizeBound t2 = .ok p := except_mapError_ok_inv hp
  obtain ⟨⟨dev, ts3⟩, hn3, hE⟩ := except_bind_ok_inv hD
  clear hD
  obtain rfl := next_ok_inv hn3
  obtain ⟨⟨dM, dm⟩, h3, hF⟩ := except_bind_ok_inv hE
  clear hE
  obtain ⟨⟨rt, ts4⟩, hn4, hG⟩ := except_bind_ok_inv hF
  clear hF
  obtain rfl := next_ok_inv hn4
  obtain ⟨⟨mp, ts5⟩, hn5, hH⟩ := except_bind_ok_inv hG
  clear hG
  obtain rfl := next_ok_inv hn5
  obtain ⟨⟨opts, ts6⟩, hn6, hI⟩ := except_bind_ok_inv hH
  clear hH
  obtain rfl := next_ok_inv hn6
  obtain ⟨mo, h6, hJ⟩ := except_bind_ok_inv hI
  clear hI
  obtain ⟨⟨tg, ts7⟩, htags, hK⟩ := except_bind_ok_inv hJ
  clear hJ
  obtain ⟨⟨fs, ts8⟩, hn7, hL⟩ := except_bind_ok_inv hK
  clear hK
  obtain rfl := next_ok_inv hn7
  obtain ⟨⟨src, ts9⟩, hn8, hM⟩ := except_bind_ok_inv hL
  clear hL
  obtain rfl := next_ok_inv hn8
  obtain ⟨⟨so, ts10⟩, hn9, hN⟩ := except_bind_ok_inv hM
  clear hM
  obtain rfl := next_ok_inv hn9
  obtain ⟨sop, hso, hO⟩ := except_bind_ok_inv hN
  clear hN
  simp only [except_pure_eq, Except.ok.injEq] at hO
  exact ⟨t1, t2, dev, rt, mp, opts, ts6, fs, src, so, ts10, tg, m, p, dM, dm, mo, sop,
    rfl, h1, h2, h3, h6, htags, hso, hO.symm⟩

theorem parseTokens_append (ts extra : List String) (r : MountEntry)
    (h : parseTokens ts = .ok r) : parseTokens (ts ++ extra) = .ok r := by
  obtain ⟨t1, t2, dev, rt, mp, opts, tagTs, fs, src, so, rest, tg, m, p, dM, dm, mo, sop,
    hts, h1, h2, h3, h6, htags, hso, hr⟩ := parseTokens_ok_inv ts r h
  subst hts
  subst hr
  have htags' : parseTags (tagTs ++ extra) = .ok (tg, fs :: src :: so :: (rest ++ extra)) :=
    parseTags_append tagTs extra tg (fs :: src :: so :: rest) htags
  simpa using parseTokens_ok_of t1 t2 dev rt mp opts (tagTs ++ extra) fs src so
    (rest ++ extra) m p dM dm mo sop tg h1 h2 h3 h6 htags' hso

/-! ### `fromStr`-level lemmas -/

theorem fromStr_eq (line : String) :
    MountEntry.fromStr line = parseTokens (tokenize line) := rfl

/-- Propagation of a device-field failure through `from_str`. -/
theorem fromStr_dev_error (line t1 t2 dev : String) (rest : List String) (m p : Nat)
    (e : LineError)
    (htok : tokenize line = t1 :: t2 :: dev :: rest)
    (h1 : parseUInt usizeBound t1 = .ok m)
    (h2 : parseUInt usizeBound t2 = .ok p)
    (hdev : parseDevId dev = .error e) :
    MountEntry.fromStr line = .error e := by
  rw [fromStr_eq, htok]
  simp [parseTokens, next, h1, h2, hdev]

/-- A trailing carriage return is trailing whitespace, so `trim` erases
it: stripping it first does not change the parse. -/
theorem rustTrim_concat_cr (l : List Char) : rustTrim ⟨l ++ ['\r']⟩ = rustTrim ⟨l⟩ := by
  unfold rustTrim
  simp only [List.reverse_append]
  rw [show (['\r'] : List Char).reverse = ['\r'] from rfl, List.singleton_append,
    List.dropWhile_cons_of_pos (by simp [Char.isWhitespace])]

theorem fromStr_stripCR (s : String) :
    MountEntry.fromStr (stripCR s) = MountEntry.fromStr s := by
  unfold stripCR
  by_cases hlast : s.data.getLast? = some '\r'
  · rw [if_pos hlast]
    have hne : s.data ≠ [] := by
      intro h
      rw [h] at hlast
      exact Option.noConfusion hlast
    have hget : s.data.getLast hne = '\r' := by
      have := List.getLast?_eq_getLast_of_ne_nil hne
      rw [hlast] at this
      exact (Option.some.inj this).symm
    have hdecomp : s.data.dropLast ++ ['\r'] = s.data := by
      have := List.dropLast_append_getLast hne
      rw [hget] at this
      exact this
    have htrim : rustTrim ⟨s.data.dropLast⟩ = rustTrim s := by
      have := rustTrim_concat_cr s.data.dropLast
      rw [hdecomp] at this
      exact this.symm ▸ (by rw [← this])
    unfold MountEntry.fromStr tokenize
    rw [htrim]
  · rw [if_neg hlast]

theorem tokenize_all_ws (line : String)
    (h : ∀ c ∈ line.data, c = ' ' ∨ c = '\t') : tokenize line = [] := by
  have hws : ∀ c ∈ line.data, Char.isWhitespace c = true := by
    intro c hc
    rcases h c hc with h' | h' <;> simp [h', Char.isWhitespace]
  have htrim : rustTrim line = "" := by
    unfold rustTrim
    have h1 : line.data.reverse.dropWhile Char.isWhitespace = [] :=
      List.dropWhile_eq_nil_iff.mpr (fun c hc => hws c (List.mem_reverse.mp hc))
    rw [h1]
    rfl
  unfold tokenize
  rw [htrim]
  rfl

theorem linesOf_two (l1 l2 : String) (h1 : '\n' ∉ l1.data) (h2 : '\n' ∉ l2.data)
    (hne : l2 ≠ "") : linesOf (l1 ++ "\n" ++ l2) = [stripCR l1, stripCR l2] := by
  unfold linesOf splitTerm
  have hdata : (l1 ++ "\n" ++ l2).data = l1.data ++ '\n' :: l2.data := by
    rw [String.data_append, String.data_append,
      show ("\n" : String).data = ['\n'] by decide, List.append_assoc, List.singleton_append]
  rw [hdata, splitTermChars_sep _ l1.data '\n' l2.data
    (fun a ha => by simp; rintro rfl; exact h1 ha) (by simp),
    splitTermChars_no_sep _ l2.data (fun hc => hne ((string_data_eq_nil_iff l2).mp hc))
    (fun a ha => by simp; rintro rfl; exact h2 ha)]
  rfl

theorem linesOf_single (line : String) (h : '\n' ∉ line.data) (hne : line ≠ "") :
    linesOf line = [stripCR line] := by
  unfold linesOf splitTerm
  rw [splitTermChars_no_sep _ line.data (fun hc => hne ((string_data_eq_nil_iff line).mp hc))
    (fun a ha => by simp; rintro rfl; exact h ha)]
  rfl

/-! ### `parseDevId` characterization -/

theorem parseDevId_wrong_count (dev : String)
    (hlen : (splitTerm dev (fun c => c = ':')).length ≠ 2)
    (hnum : ∀ s ∈ (splitTerm dev (fun c => c = ':')).take 2, ∃ v, parseUInt u32Bound s = .ok v) :
    parseDevId dev = .error (.invalidDevId dev) := by
  cases hsp : splitTerm dev (fun c => c = ':') with
  | nil => simp [parseDevId, hsp]
  | cons a rest =>
    rw [hsp] at hlen hnum
    obtain ⟨va, hva⟩ := hnum a (by simp)
    cases rest with
    | nil => simp [parseDevId, hsp, hva]
    | cons b rest2 =>
      obtain ⟨vb, hvb⟩ := hnum b (by simp)
      cases rest2 with
      | nil => exact absurd rfl hlen
      | cons c rest3 => simp [parseDevId, hsp, hva, hvb]

theorem parseDevId_first_error (dev a : String) (as : List String) (k : IntErrorKind)
    (hsp : splitTerm dev (fun c => c = ':') = a :: as)
    (ha : parseUInt u32Bound a = .error k) :
    parseDevId dev = .error (.parseIntError k) := by
  simp [parseDevId, hsp, ha]

theorem parseDevId_second_error (dev a b : String) (as : List String) (va : Nat)
    (k : IntErrorKind)
    (hsp : splitTerm dev (fun c => c = ':') = a :: b :: as)
    (ha : parseUInt u32Bound a = .ok va)
    (hb : parseUInt u32Bound b = .error k) :
    parseDevId dev = .error (.parseIntError k) := by
  simp [parseDevId, hsp, ha, hb]

/-! ### Claims -/

/-- C1: every input line conforming to the 11-field mountinfo layout —
unsigned mount id and parent id, a device token parsing as a major:minor
pair, root, mount point, parseable mount options, zero or more tag tokens
followed by the sentinel `-`, filesystem type, mount source, parseable
super options (and possibly further trailing tokens) — is parsed by
`from_str` into `Ok` of a `MountEntry` whose every field is the typed
value of the corresponding raw token, tags in order. -/
theorem claim_C1 (line t1 t2 dev rt mp opts fs src so : String)
    (mid extra : List String) (m p dM dm : Nat) (mo sop : List MntOps)
    (tg : List (String × Option String))
    (htok : tokenize line =
      t1 :: t2 :: dev :: rt :: mp :: opts :: (mid ++ "-" :: fs :: src :: so :: extra))
    (h1 : parseUInt usizeBound t1 = .ok m)
    (h2 : parseUInt usizeBound t2 = .ok p)
    (h3 : parseDevId dev = .ok (dM, dm))
    (h6 : parseOpts opts = .ok mo)
    (hmid : "-" ∉ mid)
    (htags : mid.mapM parseTag = .ok tg)
    (hso : parseOpts so = .ok sop) :
    MountEntry.fromStr line = .ok
      { mount_id := m, parent_id := p, dev_major := dM, dev_minor := dm,
        root := rt, mount_point := mp, mount_opts := mo, tags := tg,
        filesystem := fs, mount_source := src, super_opts := sop } := by
  rw [fromStr_eq, htok]
  exact parseTokens_ok_of t1 t2 dev rt mp opts _ fs src so extra m p dM dm mo sop tg
    h1 h2 h3 h6 (parseTags_mid mid tg (fs :: src :: so :: extra) hmid htags) hso

/-- C1 witness: the documentation example line round-trips. -/
theorem claim_C1_witness :
    MountEntry.fromStr
        "36 35 98:0 /mnt1 /mnt2 rw,noatime master:1 - ext3 /dev/root rw,errors=continue" =
      .ok { mount_id := 36, parent_id := 35, dev_major := 98, dev_minor := 0,
            root := "/mnt1", mount_point := "/mnt2",
            mount_opts := [.write true, .extra "noatime"],
            tags := [("master", some "1")], filesystem := "ext3",
            mount_source := "/dev/root",
            super_opts := [.write true, .extra "errors=continue"] } :=
  claim_C1 "36 35 98:0 /mnt1 /mnt2 rw,noatime master:1 - ext3 /dev/root rw,errors=continue"
    "36" "35" "98:0" "/mnt1" "/mnt2" "rw,noatime" "ext3" "/dev/root"
    "rw,errors=continue" ["master:1"] [] 36 35 98 0
    [.write true, .extra "noatime"] [.write true, .extra "errors=continue"]
    [("master", some "1")]
    (by decide) (by decide) (by decide) (by decide) (by decide) (by decide) (by decide)
    (by decide)

/-- C2 (counterexample): the claim says a non-numeric part of the device
token yields `InvalidDevId` carrying the token; on `a:0` the code instead
propagates the integer-conversion failure as `ParseIntError`. -/
theorem claim_C2_counterexample :
    MountEntry.fromStr "36 35 a:0 /mnt1 /mnt2 rw - ext3 /dev/root rw" =
      .error (.parseIntError .invalidDigit) ∧
    MountEntry.fromStr "36 35 a:0 /mnt1 /mnt2 rw - ext3 /dev/root rw" ≠
      .error (.invalidDevId "a:0") := by decide

/-- C2 (amended): with mount id and parent id parsed, an absent third
token fails with `MissingDevId`; a device token whose `split_terminator`
parts number other than two fails with `InvalidDevId` carrying the raw
token provided the (up to two) consumed parts are numeric; a non-numeric
needed part fails with `ParseIntError` instead. -/
theorem claim_C2_amended (line : String) :
    (∀ t1 t2 m p, tokenize line = [t1, t2] →
      parseUInt usizeBound t1 = .ok m → parseUInt usizeBound t2 = .ok p →
      MountEntry.fromStr line = .error .missingDevId) ∧
    (∀ t1 t2 dev rest m p, tokenize line = t1 :: t2 :: dev :: rest →
      parseUInt usizeBound t1 = .ok m → parseUInt usizeBound t2 = .ok p →
      (((splitTerm dev (fun c => c = ':')).length ≠ 2 →
        (∀ s ∈ (splitTerm dev (fun c => c = ':')).take 2, ∃ v, parseUInt u32Bound s = .ok v) →
        MountEntry.fromStr line = .error (.invalidDevId dev)) ∧
      (∀ a as k, splitTerm dev (fun c => c = ':') = a :: as →
        parseUInt u32Bound a = .error k →
        MountEntry.fromStr line = .error (.parseIntError k)) ∧
      (∀ a b as va k, splitTerm dev (fun c => c = ':') = a :: b :: as →
        parseUInt u32Bound a = .ok va → parseUInt u32Bound b = .error k →
        MountEntry.fromStr line = .error (.parseIntError k)))) := by
  constructor
  · intro t1 t2 m p htok h1 h2
    rw [fromStr_eq, htok]
    simp [parseTokens, next, h1, h2]
  · intro t1 t2 dev rest m p htok h1 h2
    refine ⟨fun hlen hnum => ?_, fun a as k hsp ha => ?_, fun a b as va k hsp ha hb => ?_⟩
    · exact fromStr_dev_error line t1 t2 dev rest m p _ htok h1 h2
        (parseDevId_wrong_count dev hlen hnum)
    · exact fromStr_dev_error line t1 t2 dev rest m p _ htok h1 h2
        (parseDevId_first_error dev a as k hsp ha)
    · exact fromStr_dev_error line t1 t2 dev rest m p _ htok h1 h2
        (parseDevId_second_error dev a b as va k hsp ha hb)

/-- C2 witness: a device token with three parts is rejected with
`InvalidDevId` carrying the raw token, and a missing one with
`MissingDevId`. -/
theorem claim_C2_witness :
    MountEntry.fromStr "36 35 1:2:3 / /mnt rw - ext3 /dev/root rw" =
      .error (.invalidDevId "1:2:3") ∧
    MountEntry.fromStr "36 35" = .error .missingDevId :=
  ⟨((claim_C2_amended "36 35 1:2:3 / /mnt rw - ext3 /dev/root rw").2 "36" "35" "1:2:3"
      ["/", "/mnt", "rw", "-", "ext3", "/dev/root", "rw"] 36 35
      (by decide) (by decide) (by decide)).1 (by decide)
      (by
        intro s hs
        have hc : List.take 2 (splitTerm "1:2:3" (fun c => c = ':')) = ["1", "2"] := by decide
        rw [hc] at hs
        simp only [List.mem_cons, List.not_mem_nil, or_false] at hs
        rcases hs with rfl | rfl
        · exact ⟨1, by decide⟩
        · exact ⟨2, by decide⟩),
    (claim_C2_amended "36 35").1 "36" "35" 36 35 (by decide) (by decide) (by decide)⟩

/-- C3: when the first six fields parse but the token stream is exhausted
before the sentinel `-`, `from_str` fails with `MissingSeparator` (and
with no other variant). -/
theorem claim_C3 (line t1 t2 dev rt mp opts : String) (rest : List String)
    (m p dM dm : Nat) (mo : List MntOps)
    (htok : tokenize line = t1 :: t2 :: dev :: rt :: mp :: opts :: rest)
    (h1 : parseUInt usizeBound t1 = .ok m)
    (h2 : parseUInt usizeBound t2 = .ok p)
    (h3 : parseDevId dev = .ok (dM, dm))
    (h6 : parseOpts opts = .ok mo)
    (hsent : "-" ∉ rest) :
    MountEntry.fromStr line = .error .missingSeparator := by
  have hne : ∀ t ∈ rest, t ≠ "" := by
    intro t ht
    apply tokenize_mem_ne_empty line
    rw [htok]
    exact List.mem_cons_of_mem _ (List.mem_cons_of_mem _ (List.mem_cons_of_mem _
      (List.mem_cons_of_mem _ (List.mem_cons_of_mem _ (List.mem_cons_of_mem _ ht)))))
  have htags := parseTags_no_sentinel rest hne hsent
  rw [fromStr_eq, htok]
  simp [parseTokens, next, h1, h2, h3, h6, htags]

/-- C3 witness: a line that ends inside the tag list. -/
theorem claim_C3_witness :
    MountEntry.fromStr "36 35 98:0 / /mnt rw tag1" = .error .missingSeparator :=
  claim_C3 _ "36" "35" "98:0" "/" "/mnt" "rw" ["tag1"] 36 35 98 0 [.write true]
    (by decide) (by decide) (by decide) (by decide) (by decide) (by decide)

/-- C6: parsing depends only on the line text — equal inputs give equal
results (in this pure embedding the stronger statement that `from_str` is
a function of the line alone is definitional). -/
theorem claim_C6 (l1 l2 : String) (h : l1 = l2) :
    MountEntry.fromStr l1 = MountEntry.fromStr l2 := by rw [h]

/-- C6 witness. -/
theorem claim_C6_witness :
    MountEntry.fromStr "26 0 8:2 / / rw - ext4 /dev/sda2 rw" =
      MountEntry.fromStr "26 0 8:2 / / rw - ext4 /dev/sda2 rw" :=
  claim_C6 _ _ rfl

/-- C4 (counterexample): the claim says tag token `shared:` is recorded as
`("shared", Some(""))`; `split_terminator(':')` drops the trailing empty
part, so the code records `("shared", None)`. -/
theorem claim_C4_counterexample :
    MountEntry.fromStr "36 35 98:0 / /mnt rw shared: - ext3 /dev/root rw" =
      .ok { mount_id := 36, parent_id := 35, dev_major := 98, dev_minor := 0,
            root := "/", mount_point := "/mnt", mount_opts := [.write true],
            tags := [("shared", none)], filesystem := "ext3",
            mount_source := "/dev/root", super_opts := [.write true] } ∧
    [(("shared" : String), (none : Option String))] ≠ [("shared", some "")] := by decide

/-- C4 (amended): on a successfully parsed line a tag token with no `:`
is recorded as `(token, None)`, and a tag token of the form `name:` (one
trailing colon) is recorded as `(name, None)` — the value is absent, not
the empty string, because `split_terminator` drops the trailing empty
part. -/
theorem claim_C4_amended (line t1 t2 dev rt mp opts fs src so : String)
    (mid extra : List String) (m p dM dm : Nat) (mo sop : List MntOps)
    (tg : List (String × Option String))
    (htok : tokenize line =
      t1 :: t2 :: dev :: rt :: mp :: opts :: (mid ++ "-" :: fs :: src :: so :: extra))
    (h1 : parseUInt usizeBound t1 = .ok m)
    (h2 : parseUInt usizeBound t2 = .ok p)
    (h3 : parseDevId dev = .ok (dM, dm))
    (h6 : parseOpts opts = .ok mo)
    (hmid : "-" ∉ mid)
    (htags : mid.mapM parseTag = .ok tg)
    (hso : parseOpts so = .ok sop) :
    MountEntry.fromStr line = .ok
      { mount_id := m, parent_id := p, dev_major := dM, dev_minor := dm,
        root := rt, mount_point := mp, mount_opts := mo, tags := tg,
        filesystem := fs, mount_source := src, super_opts := sop } ∧
    List.Forall₂ (fun (tok : String) (pr : String × Option String) =>
      ((∀ c ∈ tok.data, c ≠ ':') → pr = (tok, none)) ∧
      (∀ nm : String, tok = nm ++ ":" → (∀ c ∈ nm.data, c ≠ ':') → pr = (nm, none)))
      mid tg := by
  constructor
  · rw [fromStr_eq, htok]
    exact parseTokens_ok_of t1 t2 dev rt mp opts _ fs src so extra m p dM dm mo sop tg
      h1 h2 h3 h6 (parseTags_mid mid tg (fs :: src :: so :: extra) hmid htags) hso
  · refine (forall₂_of_mapM_tags mid tg htags).imp ?_
    intro tok pr hok
    exact ⟨fun hc => parseTag_ok_no_colon tok pr hok hc,
      fun nm heq hc => parseTag_trailing_colon nm pr (heq ▸ hok) hc⟩

/-- C4 witness: `noexec` becomes `("noexec", None)` and `shared:` becomes
`("shared", None)`. -/
theorem claim_C4_witness :
    MountEntry.fromStr "36 35 98:0 / /mnt rw noexec shared: - ext3 /dev/root rw" =
      .ok { mount_id := 36, parent_id := 35, dev_major := 98, dev_minor := 0,
            root := "/", mount_point := "/mnt", mount_opts := [.write true],
            tags := [("noexec", none), ("shared", none)], filesystem := "ext3",
            mount_source := "/dev/root", super_opts := [.write true] } :=
  (claim_C4_amended "36 35 98:0 / /mnt rw noexec shared: - ext3 /dev/root rw"
    "36" "35" "98:0" "/" "/mnt" "rw" "ext3" "/dev/root" "rw"
    ["noexec", "shared:"] [] 36 35 98 0 [.write true] [.write true]
    [("noexec", none), ("shared", none)]
    (by decide) (by decide) (by decide) (by decide) (by decide) (by decide) (by decide)
    (by decide)).1

/-- C5 (counterexample): the claim says a tag token `:` (empty name)
makes `from_str` fail with `InvalidTag`; the code accepts it, recording a
tag with empty name and no value. -/
theorem claim_C5_counterexample :
    MountEntry.fromStr "36 35 98:0 / /mnt rw : - ext3 /dev/root rw" =
      .ok { mount_id := 36, parent_id := 35, dev_major := 98, dev_minor := 0,
            root := "/", mount_point := "/mnt", mount_opts := [.write true],
            tags := [("", none)], filesystem := "ext3",
            mount_source := "/dev/root", super_opts := [.write true] } ∧
    MountEntry.fromStr "36 35 98:0 / /mnt rw : - ext3 /dev/root rw" ≠
      .error (.invalidTag ":") := by decide

/-- C5 (amended): a tag token beginning with `:` (empty name, e.g. the
token `:` itself) is not rejected: on an otherwise well-formed line
`from_str` succeeds and records a tag whose name is the empty string. -/
theorem claim_C5_amended (line t1 t2 dev rt mp opts fs src so : String)
    (mid extra : List String) (m p dM dm : Nat) (mo sop : List MntOps)
    (tg : List (String × Option String))
    (htok : tokenize line =
      t1 :: t2 :: dev :: rt :: mp :: opts :: (mid ++ "-" :: fs :: src :: so :: extra))
    (h1 : parseUInt usizeBound t1 = .ok m)
    (h2 : parseUInt usizeBound t2 = .ok p)
    (h3 : parseDevId dev = .ok (dM, dm))
    (h6 : parseOpts opts = .ok mo)
    (hmid : "-" ∉ mid)
    (htags : mid.mapM parseTag = .ok tg)
    (hso : parseOpts so = .ok sop) :
    MountEntry.fromStr line = .ok
      { mount_id := m, parent_id := p, dev_major := dM, dev_minor := dm,
        root := rt, mount_point := mp, mount_opts := mo, tags := tg,
        filesystem := fs, mount_source := src, super_opts := sop } ∧
    List.Forall₂ (fun (tok : String) (pr : String × Option String) =>
      ∀ rest0 : List Char, tok.data = ':' :: rest0 → pr.1 = "") mid tg := by
  constructor
  · rw [fromStr_eq, htok]
    exact parseTokens_ok_of t1 t2 dev rt mp opts _ fs src so extra m p dM dm mo sop tg
      h1 h2 h3 h6 (parseTags_mid mid tg (fs :: src :: so :: extra) hmid htags) hso
  · refine (forall₂_of_mapM_tags mid tg htags).imp ?_
    intro tok pr hok
    exact fun rest0 hdat => parseTag_leading_colon tok pr rest0 hok hdat

/-- C5 witness: the tag token `:` parses to a tag with empty name. -/
theorem claim_C5_witness :
    MountEntry.fromStr "36 35 98:0 / /mnt rw : - ext3 /dev/root rw" =
      .ok { mount_id := 36, parent_id := 35, dev_major := 98, dev_minor := 0,
            root := "/", mount_point := "/mnt", mount_opts := [.write true],
            tags := [("", none)], filesystem := "ext3",
            mount_source := "/dev/root", super_opts := [.write true] } :=
  (claim_C5_amended "36 35 98:0 / /mnt rw : - ext3 /dev/root rw"
    "36" "35" "98:0" "/" "/mnt" "rw" "ext3" "/dev/root" "rw"
    [":"] [] 36 35 98 0 [.write true] [.write true] [("", none)]
    (by decide) (by decide) (by decide) (by decide) (by decide) (by decide) (by decide)
    (by decide)).1

/-- C7: tokens after `super_opts` are ignored — a line whose token stream
is a successfully-parsed prefix followed by extra tokens parses to the
same record as a line tokenizing to the prefix alone. -/
theorem claim_C7 (line line' : String) (pre extra : List String) (r : MountEntry)
    (h1 : tokenize line = pre ++ extra)
    (h2 : tokenize line' = pre)
    (hok : parseTokens pre = .ok r) :
    MountEntry.fromStr line = .ok r ∧
    MountEntry.fromStr line = MountEntry.fromStr line' := by
  have happ := parseTokens_append pre extra r hok
  constructor
  · rw [fromStr_eq, h1]
    exact happ
  · rw [fromStr_eq, fromStr_eq, h1, h2, happ, hok]

/-- C7 witness: two junk tokens after the super options change nothing. -/
theorem claim_C7_witness :
    MountEntry.fromStr "26 0 8:2 / / rw - ext4 /dev/sda2 rw bonus1 bonus2" =
      .ok { mount_id := 26, parent_id := 0, dev_major := 8, dev_minor := 2,
            root := "/", mount_point := "/", mount_opts := [.write true],
            tags := [], filesystem := "ext4", mount_source := "/dev/sda2",
            super_opts := [.write true] } ∧
    MountEntry.fromStr "26 0 8:2 / / rw - ext4 /dev/sda2 rw bonus1 bonus2" =
      MountEntry.fromStr "26 0 8:2 / / rw - ext4 /dev/sda2 rw" :=
  claim_C7 "26 0 8:2 / / rw - ext4 /dev/sda2 rw bonus1 bonus2"
    "26 0 8:2 / / rw - ext4 /dev/sda2 rw"
    ["26", "0", "8:2", "/", "/", "rw", "-", "ext4", "/dev/sda2", "rw"]
    ["bonus1", "bonus2"]
    { mount_id := 26, parent_id := 0, dev_major := 8, dev_minor := 2,
      root := "/", mount_point := "/", mount_opts := [.write true],
      tags := [], filesystem := "ext4", mount_source := "/dev/sda2",
      super_opts := [.write true] }
    (by decide) (by decide) (by decide)

/-- C8: streaming a well-formed line followed by a malformed one yields
exactly two items in order — the first line's record then the second
line's failure — and nothing more. -/
theorem claim_C8 (l1 l2 : String) (r : MountEntry) (e : LineError)
    (h1 : '\n' ∉ l1.data) (h2 : '\n' ∉ l2.data) (hne : l2 ≠ "")
    (hok : MountEntry.fromStr l1 = .ok r)
    (herr : MountEntry.fromStr l2 = .error e) :
    parse_mountinfo (l1 ++ "\n" ++ l2) = [.ok r, .error e] := by
  unfold parse_mountinfo
  rw [linesOf_two l1 l2 h1 h2 hne]
  simp [fromStr_stripCR, hok, herr]

/-- C8 witness: the repository test's second line followed by `bad`. -/
theorem claim_C8_witness :
    parse_mountinfo "26 0 8:2 / / rw - ext4 /dev/sda2 rw\nbad" =
      [.ok { mount_id := 26, parent_id := 0, dev_major := 8, dev_minor := 2,
             root := "/", mount_point := "/", mount_opts := [.write true],
             tags := [], filesystem := "ext4", mount_source := "/dev/sda2",
             super_opts := [.write true] },
       .error (.parseIntError .invalidDigit)] :=
  claim_C8 "26 0 8:2 / / rw - ext4 /dev/sda2 rw" "bad" _ _
    (by decide) (by decide) (by decide) (by decide) (by decide)

/-- C9: a line that is empty or all spaces/tabs fails with
`MissingMountId`; the streaming adapter maps such a (non-empty) line to
exactly one `Err` item rather than skipping it. -/
theorem claim_C9 (line : String) (h : ∀ c ∈ line.data, c = ' ' ∨ c = '\t') :
    MountEntry.fromStr line = .error .missingMountId ∧
    (line ≠ "" → parse_mountinfo line = [.error .missingMountId]) := by
  have hmain : MountEntry.fromStr line = .error .missingMountId := by
    rw [fromStr_eq, tokenize_all_ws line h]
    rfl
  refine ⟨hmain, fun hne => ?_⟩
  have hnl : '\n' ∉ line.data := fun hm => by rcases h _ hm with h' | h' <;> simp at h'
  unfold parse_mountinfo
  rw [linesOf_single line hnl hne]
  simp [fromStr_stripCR, hmain]

/-- C9 witness: a line of one space and one tab. -/
theorem claim_C9_witness :
    MountEntry.fromStr " \t" = .error .missingMountId ∧
    parse_mountinfo " \t" = [.error .missingMountId] := by
  have h := claim_C9 " \t" (by decide)
  exact ⟨h.1, h.2 (by decide)⟩

/-- C10: a device token that is a valid `major:minor` pair followed by a
single trailing colon (e.g. `98:0:`) is accepted with device id
`(major, minor)` — the trailing empty part after the final `:` is
discarded by `split_terminator` rather than counted as a third part — and
a successful parse of a line with such a third token carries that device
id in the record. -/
theorem claim_C10 (dev ma mi : String) (dM dm : Nat)
    (hma : ∀ c ∈ ma.data, c ≠ ':') (hmi : ∀ c ∈ mi.data, c ≠ ':')
    (hpa : parseUInt u32Bound ma = .ok dM) (hpb : parseUInt u32Bound mi = .ok dm)
    (hdev : dev = ma ++ ":" ++ mi ++ ":") :
    parseDevId dev = .ok (dM, dm) ∧
    (∀ line t1 t2 rest r, tokenize line = t1 :: t2 :: dev :: rest →
      MountEntry.fromStr line = .ok r →
      r.dev_major = dM ∧ r.dev_minor = dm) := by
  have hsp : splitTerm dev (fun c => c = ':') = [ma, mi] := by
    subst hdev
    unfold splitTerm
    have hdata : (ma ++ ":" ++ mi ++ ":").data = ma.data ++ ':' :: (mi.data ++ ':' :: []) := by
      rw [String.data_append, String.data_append, String.data_append,
        show (":" : String).data = [':'] by decide, List.append_assoc, List.append_assoc,
        List.singleton_append]
    rw [hdata, splitTermChars_sep _ ma.data ':' (mi.data ++ ':' :: [])
        (fun a ha => by simpa using hma a ha) (by simp),
      splitTermChars_sep _ mi.data ':' []
        (fun a ha => by simpa using hmi a ha) (by simp),
      splitTermChars_nil]
    rfl
  have hdev1 : parseDevId dev = .ok (dM, dm) := by
    simp [parseDevId, hsp, hpa, hpb]
  refine ⟨hdev1, fun line t1 t2 rest r htok hok => ?_⟩
  rw [fromStr_eq, htok] at hok
  obtain ⟨u1, u2, dev', rt, mp, opts, tagTs, fs, src, so, rest', tg, m', p', dM', dm',
    mo, sop, hts, _, _, h3, _, _, _, hr⟩ := parseTokens_ok_inv _ r hok
  obtain ⟨he1, hts⟩ := List.cons.inj hts
  obtain ⟨he2, hts⟩ := List.cons.inj hts
  obtain ⟨he3, hts⟩ := List.cons.inj hts
  rw [← he3] at h3
  rw [hdev1] at h3
  obtain ⟨hM, hm'⟩ := Prod.mk.injEq .. ▸ Except.ok.inj h3
  rw [hr]
  exact ⟨hM.symm, hm'.symm⟩

/-- C10 witness: `98:0:` is accepted as device id `(98, 0)`. -/
theorem claim_C10_witness : parseDevId "98:0:" = .ok (98, 0) :=
  (claim_C10 "98:0:" "98" "0" 98 0 (by decide) (by decide) (by decide) (by decide)
    (by decide)).1

end Mntrs
